import Mathlib

/-!
Verification of the DPE data-pipeline core: the cursor-paginated fetcher and
record cleaner of tools/fetch_dpe_data.py, and the leakage guard and adaptive
stratified partitioner of tools/setup_data.py, embedded shallowly as Lean
functions over lists.  Missing values (pandas NaN) are modelled as `none`,
numeric cell values as rationals.
-/

namespace DPE

/-! ### Record Cleaner (`clean_data`, tools/fetch_dpe_data.py)

A data row keeps the three columns the cleaner inspects. -/

structure DRow where
  conso_5_usages_ep : Option ℚ
  surface_habitable_logement : Option ℚ
  conso_5_usages_par_m2_ep : Option ℚ
deriving DecidableEq, Repr

/-- Pandas semantics of `series > 0`: a missing value compares false. -/
def gtZero (o : Option ℚ) : Bool :=
  match o with
  | some v => decide (0 < v)
  | none => false

/-- Pandas semantics of `series <= c`: a missing value compares false. -/
def leVal (o : Option ℚ) (c : ℚ) : Bool :=
  match o with
  | some v => decide (v ≤ c)
  | none => false

/-- `clean_data` (tools/fetch_dpe_data.py): drop rows with a missing target or
surface, keep `conso_5_usages_ep > 0`, keep `surface_habitable_logement > 0`,
keep `conso_5_usages_par_m2_ep <= 1000`; `reset_index(drop=True)` is implicit
in the list representation. -/
def clean_data (df : List DRow) : List DRow :=
  ((((df.filter fun r =>
        r.conso_5_usages_ep.isSome && r.surface_habitable_logement.isSome).filter
          fun r => gtZero r.conso_5_usages_ep).filter
            fun r => gtZero r.surface_habitable_logement).filter
              fun r => leVal r.conso_5_usages_par_m2_ep 1000)

/-- The Record Cleaner as claim C2 words it: its predicate (3) reads the
per-unit-area target quantity instead of the primary size attribute. -/
def cleanClaimC2 (df : List DRow) : List DRow :=
  df.filter fun r =>
    (r.conso_5_usages_ep.isSome && r.surface_habitable_logement.isSome)
      && gtZero r.conso_5_usages_ep
      && gtZero r.conso_5_usages_par_m2_ep
      && leVal r.conso_5_usages_par_m2_ep 1000

/-- The four cleaner predicates of the source, combined (predicate (3) is
positivity of the primary size attribute `surface_habitable_logement`). -/
def keepRow (r : DRow) : Bool :=
  (r.conso_5_usages_ep.isSome && r.surface_habitable_logement.isSome)
    && gtZero r.conso_5_usages_ep
    && gtZero r.surface_habitable_logement
    && leVal r.conso_5_usages_par_m2_ep 1000

theorem clean_data_eq_filter (df : List DRow) : clean_data df = df.filter keepRow := by
  simp only [clean_data, List.filter_filter]
  apply List.filter_congr
  intro r _
  simp only [keepRow]
  cases r.conso_5_usages_ep.isSome && r.surface_habitable_logement.isSome <;>
    cases gtZero r.conso_5_usages_ep <;>
      cases gtZero r.surface_habitable_logement <;>
        cases leVal r.conso_5_usages_par_m2_ep 1000 <;> rfl

/-- A row passing the source's predicates whose per-unit-area quantity is 0:
it fails predicate (3) of claim C2, yet the cleaner keeps it. -/
def rowZeroPerM2 : DRow := ⟨some 10, some 5, some 0⟩

/-- C2 as stated is false: on a row whose per-unit-area target quantity is 0
(positive target quantity and surface), the cleaner keeps the row while the
claim's four predicates would drop it. -/
theorem C2_counterexample :
    clean_data [rowZeroPerM2] = [rowZeroPerM2] ∧ cleanClaimC2 [rowZeroPerM2] = [] := by
  constructor <;> decide

/-- C2 (amended): the Record Cleaner returns exactly the rows passing the four
predicates (1) non-null target quantity and non-null primary size attribute,
(2) target-defining energy quantity > 0, (3) primary size attribute > 0,
(4) per-unit-area target quantity <= 1000, in original relative order with
indices renumbered contiguously from zero. -/
theorem C2_record_cleaner (df : List DRow) :
    clean_data df = df.filter keepRow ∧ (clean_data df).Sublist df := by
  refine ⟨clean_data_eq_filter df, ?_⟩
  rw [clean_data_eq_filter]
  exact List.filter_sublist df

/-- C7: the Record Cleaner is idempotent: applying it to its own output yields
the same rows, in the same order, as applying it once. -/
theorem C7_clean_idempotent (df : List DRow) :
    clean_data (clean_data df) = clean_data df := by
  rw [clean_data_eq_filter, clean_data_eq_filter, List.filter_filter]
  apply List.filter_congr
  intro r _
  exact Bool.and_self _

/-- C9: every row whose per-unit-area target quantity is missing is absent from
the cleaner's output, because the plausibility-ceiling comparison evaluates to
false on a missing value. -/
theorem C9_null_per_m2_dropped (df : List DRow) (r : DRow)
    (h : r.conso_5_usages_par_m2_ep = none) :
    r ∉ clean_data df ∧ leVal r.conso_5_usages_par_m2_ep 1000 = false := by
  constructor
  · intro hmem
    rw [clean_data_eq_filter] at hmem
    have hk := (List.mem_filter.mp hmem).2
    simp [keepRow, h, leVal] at hk
  · rw [h]
    rfl

/-- A row with positive non-null target quantity and surface but missing
per-unit-area quantity. -/
def rowNullPerM2 : DRow := ⟨some 100, some 50, none⟩

theorem C9_witness :
    rowNullPerM2 ∉ clean_data [rowNullPerM2] ∧
      leVal rowNullPerM2.conso_5_usages_par_m2_ep 1000 = false :=
  C9_null_per_m2_dropped [rowNullPerM2] rowNullPerM2 rfl

/-! ### Leakage Guard (tools/setup_data.py) -/

def TARGET : String := "etiquette_dpe"

def META_COLS : List String :=
  ["numero_dpe", "date_derniere_modification_dpe", "date_etablissement_dpe",
   "modele_dpe", "version_dpe", "methode_application_dpe", "identifiant_ban",
   "score_ban", "statut_geocodage"]

def LEAKY_COLS : List String :=
  ["conso_5_usages_ep", "conso_5_usages_par_m2_ep", "conso_chauffage_ep",
   "conso_ecs_ep", "conso_refroidissement_ep", "conso_eclairage_ep",
   "conso_auxiliaires_ep", "conso_5 usages_ef", "conso_5 usages_par_m2_ef",
   "conso_chauffage_ef", "conso_ecs_ef", "conso_refroidissement_ef",
   "conso_eclairage_ef", "conso_auxiliaires_ef", "emission_ges_5_usages",
   "emission_ges_5_usages par_m2", "emission_ges_chauffage", "emission_ges_ecs",
   "emission_ges_refroidissement", "emission_ges_eclairage",
   "emission_ges_auxiliaires", "etiquette_ges", "conso_5 usages_ef_energie_n1",
   "conso_chauffage_ef_energie_n1", "conso_ecs_ef_energie_n1",
   "emission_ges_5_usages_energie_n1", "emission_ges_chauffage_energie_n1",
   "emission_ges_ecs_energie_n1", "cout_total_5_usages_energie_n1",
   "cout_chauffage_energie_n1", "cout_ecs_energie_n1", "cout_total_5_usages",
   "cout_chauffage", "cout_ecs", "cout_refroidissement", "cout_eclairage",
   "cout_auxiliaires"]

/-- `feature_cols` (tools/setup_data.py): the input columns not in
`set(META_COLS + LEAKY_COLS + [TARGET])`, in input order. -/
def feature_cols (cols : List String) : List String :=
  cols.filter fun c => !decide (c ∈ META_COLS ++ LEAKY_COLS ++ [TARGET])

/-- C5: the Feature Set is exactly the input columns outside the union of the
metadata list, the leaky list and the target column: listed columns never
appear, listed columns absent from the input cause no error, and every other
present column is kept. -/
theorem C5_leakage_guard (cols : List String) (c : String) :
    c ∈ feature_cols cols ↔
      c ∈ cols ∧ c ∉ META_COLS ∧ c ∉ LEAKY_COLS ∧ c ≠ TARGET := by
  simp [feature_cols, List.mem_filter, List.mem_append, not_or, and_assoc]

/-! ### Adaptive Stratified Partitioner: granularity decision
(tools/setup_data.py, `main`, steps 5)

A row keeps the two columns the decision inspects: the target label (never
missing after the dropna step) and the raw region code. -/

structure SRow where
  etiquette : String
  code_region_ban : Option ℚ
deriving DecidableEq, Repr

def labelsOf (rows : List SRow) : List String := rows.map fun r => r.etiquette

/-- `value_counts` ignores missing entries: the non-null region codes. -/
def regionsOf (rows : List SRow) : List ℚ :=
  rows.filterMap fun r => r.code_region_ban

/-- `series.value_counts(normalize=True).min()`: the least proportion among
the values of the series (0 for an empty series). -/
def minProp {α : Type} [DecidableEq α] (l : List α) : ℚ :=
  match l.map fun v => (l.count v : ℚ) / (l.length : ℚ) with
  | [] => 0
  | x :: xs => xs.foldl min x

/-- Python's `round` on an exact value: round half to even. -/
def pyRound (q : ℚ) : ℤ :=
  if q - ⌊q⌋ < 1 / 2 then ⌊q⌋
  else if 1 / 2 < q - ⌊q⌋ then ⌊q⌋ + 1
  else if ⌊q⌋ % 2 = 0 then ⌊q⌋ else ⌊q⌋ + 1

/-- Numpy's float-to-int cast: truncation toward zero. -/
def ratTrunc (q : ℚ) : ℤ := if 0 ≤ q then ⌊q⌋ else ⌈q⌉

/-- Region normalization (tools/setup_data.py):
`fillna(-1).astype(float).astype(int).astype(str)`. -/
def region_str (o : Option ℚ) : String := toString (ratTrunc (o.getD (-1)))

/-- `min_n_required = round(4 / (p_label * p_region))` (tools/setup_data.py). -/
def min_n_required (rows : List SRow) : ℤ :=
  pyRound (4 / (minProp (labelsOf rows) * minProp (regionsOf rows)))

/-- The granularity decision `len(df) >= min_n_required`. -/
def joint_strat (rows : List SRow) : Bool :=
  decide (min_n_required rows ≤ (rows.length : ℤ))

/-- The stratification key series: label concatenated with normalized region
when the dataset is large enough, else the label alone. -/
def strat_keys (rows : List SRow) : List String :=
  if joint_strat rows then
    rows.map fun r => r.etiquette ++ "_" ++ region_str r.code_region_ban
  else rows.map fun r => r.etiquette

/-- Claim C1's formula for the minimum size, with a ceiling. -/
def min_n_claimC1 (rows : List SRow) : ℤ :=
  ⌈(4 : ℚ) / (minProp (labelsOf rows) * minProp (regionsOf rows))⌉

/-- `p` is the minimum class proportion of the series `l`: it is the
proportion of some value of `l` and a lower bound on every value's
proportion. -/
def IsMinClassProportion {α : Type} [DecidableEq α] (l : List α) (p : ℚ) : Prop :=
  (∃ v ∈ l, p = (l.count v : ℚ) / (l.length : ℚ)) ∧
    ∀ v ∈ l, p ≤ (l.count v : ℚ) / (l.length : ℚ)

instance {α : Type} [DecidableEq α] (l : List α) (p : ℚ) :
    Decidable (IsMinClassProportion l p) := by
  unfold IsMinClassProportion
  infer_instance

theorem foldl_min_le_init (xs : List ℚ) (x : ℚ) : xs.foldl min x ≤ x := by
  induction xs generalizing x with
  | nil => exact le_refl x
  | cons z t ih => exact le_trans (ih (min x z)) (min_le_left x z)

theorem foldl_min_le {xs : List ℚ} {x y : ℚ} (h : y = x ∨ y ∈ xs) :
    xs.foldl min x ≤ y := by
  induction xs generalizing x with
  | nil =>
    rcases h with rfl | h
    · exact le_refl y
    · exact absurd h (List.not_mem_nil y)
  | cons z t ih =>
    rcases h with rfl | h
    · exact le_trans (foldl_min_le_init t (min y z)) (min_le_left y z)
    · rcases List.mem_cons.mp h with rfl | h
      · exact le_trans (foldl_min_le_init t (min x y)) (min_le_right x y)
      · exact ih (Or.inr h)

theorem foldl_min_mem (xs : List ℚ) (x : ℚ) :
    xs.foldl min x = x ∨ xs.foldl min x ∈ xs := by
  induction xs generalizing x with
  | nil => exact Or.inl rfl
  | cons z t ih =>
    rcases ih (min x z) with h | h
    · rcases min_choice x z with hm | hm
      · exact Or.inl (by rw [List.foldl_cons, h, hm])
      · exact Or.inr (by rw [List.foldl_cons, h, hm]; exact List.mem_cons_self z t)
    · exact Or.inr (List.mem_cons_of_mem z h)

theorem minProp_spec {α : Type} [DecidableEq α] (l : List α) (hl : l ≠ []) :
    IsMinClassProportion l (minProp l) := by
  cases l with
  | nil => exact absurd rfl hl
  | cons a t =>
    constructor
    · rcases foldl_min_mem
          (t.map fun v => ((a :: t).count v : ℚ) / ((a :: t).length : ℚ))
          (((a :: t).count a : ℚ) / ((a :: t).length : ℚ)) with h | h
      · exact ⟨a, List.mem_cons_self a t, by simp only [minProp, List.map_cons]; rw [h]⟩
      · rcases List.mem_map.mp h with ⟨v, hv, hveq⟩
        exact ⟨v, List.mem_cons_of_mem a hv,
          by simp only [minProp, List.map_cons]; rw [hveq]⟩
    · intro v hv
      simp only [minProp, List.map_cons]
      rcases List.mem_cons.mp hv with rfl | hv
      · exact foldl_min_le (Or.inl rfl)
      · exact foldl_min_le (Or.inr (List.mem_map_of_mem _ hv))

theorem IsMinClassProportion.eq_minProp {α : Type} [DecidableEq α]
    {l : List α} {p : ℚ} (h : IsMinClassProportion l p) : p = minProp l := by
  obtain ⟨⟨v, hv, hpv⟩, hlb⟩ := h
  have hl : l ≠ [] := by
    intro e
    rw [e] at hv
    exact List.not_mem_nil v hv
  obtain ⟨⟨w, hw, hw2⟩, hlb2⟩ := minProp_spec l hl
  exact le_antisymm (hw2 ▸ hlb w hw) (hpv ▸ hlb2 v hv)

/-- C1 (amended): writing p and q for the minimum class proportions of the
target label and of the (non-null) region code, the partitioner computes
`min_n = round(4 / (p * q))` with Python's round-half-to-even (not a
ceiling), chooses the joint label-concatenated-with-region key exactly when
the dataset size is at least this `min_n`, and otherwise falls back to the
label-only key, warning. -/
theorem C1_partitioner_decision (rows : List SRow) (p q : ℚ)
    (hp : IsMinClassProportion (labelsOf rows) p)
    (hq : IsMinClassProportion (regionsOf rows) q) :
    (joint_strat rows = true ↔ pyRound (4 / (p * q)) ≤ (rows.length : ℤ)) ∧
      (joint_strat rows = true →
        strat_keys rows =
          rows.map fun r => r.etiquette ++ "_" ++ region_str r.code_region_ban) ∧
      (joint_strat rows = false → strat_keys rows = rows.map fun r => r.etiquette) := by
  rw [hp.eq_minProp, hq.eq_minProp]
  refine ⟨?_, ?_, ?_⟩
  · simp [joint_strat, min_n_required]
  · intro h
    simp [strat_keys, h]
  · intro h
    simp [strat_keys, h]

/-- Four rows: label proportions 3/4 and 1/4, region proportions 1/2 and 1/2;
`4 / (1/4 * 1/2) = 32 > 4`, so the fallback key is chosen. -/
def rows4 : List SRow :=
  [⟨"A", some 1⟩, ⟨"A", some 1⟩, ⟨"A", some 2⟩, ⟨"B", some 2⟩]

theorem C1_witness :
    IsMinClassProportion (labelsOf rows4) (1 / 4) ∧
      IsMinClassProportion (regionsOf rows4) (1 / 2) ∧
      (joint_strat rows4 = true ↔
        pyRound (4 / (1 / 4 * (1 / 2))) ≤ (rows4.length : ℤ)) :=
  ⟨by with_unfolding_all decide, by with_unfolding_all decide,
    (C1_partitioner_decision rows4 (1 / 4) (1 / 2) (by with_unfolding_all decide)
      (by with_unfolding_all decide)).1⟩

/-- 25 rows: label counts 9 and 16, region counts 11 and 14, so
`4 / (p_label * p_region) = 2500/99`. -/
def rows25 : List SRow :=
  List.replicate 9 ⟨"A", some 1⟩ ++ List.replicate 2 ⟨"B", some 1⟩ ++
    List.replicate 14 ⟨"B", some 2⟩

set_option maxRecDepth 40000 in
/-- C1 as stated is false: on this dataset `4 / (p_label_min * p_region_min)`
is 2500/99, whose ceiling 26 exceeds the dataset size 25, so the claim
prescribes the label-only fallback; the code rounds instead (obtaining 25)
and chooses the joint key. -/
theorem C1_counterexample :
    joint_strat rows25 = true ∧ (rows25.length : ℤ) < min_n_claimC1 rows25 := by
  constructor <;> with_unfolding_all decide

/-- C10: the region-key derivation is total: a missing region code maps to
the string "-1", and a numeric (possibly float-encoded) code is truncated
toward zero to its integer part and rendered as a decimal string; missing
regions hence form their own "-1" pseudo-region stratum in the joint key. -/
theorem C10_region_key (o : Option ℚ) :
    (o = none → region_str o = "-1") ∧
      (∀ x : ℚ, o = some x → region_str o = toString (ratTrunc x) ∧
        (0 ≤ x → ((ratTrunc x : ℚ) ≤ x ∧ x < ratTrunc x + 1))) ∧
      (∀ lbl : String, o = none → lbl ++ "_" ++ region_str o = lbl ++ "_-1") := by
  refine ⟨?_, ?_, ?_⟩
  · rintro rfl
    with_unfolding_all decide
  · rintro x rfl
    refine ⟨rfl, fun hx => ?_⟩
    rw [ratTrunc, if_pos hx]
    exact ⟨Int.floor_le x, Int.lt_floor_add_one x⟩
  · rintro lbl rfl
    have h : region_str none = "-1" := by with_unfolding_all decide
    rw [h, String.append_assoc]
    congr 1

theorem C10_witness :
    region_str none = "-1" ∧ region_str (some 84) = "84" := by
  refine ⟨(C10_region_key none).1 rfl, ?_⟩
  have h := ((C10_region_key (some 84)).2.1 84 rfl).1
  rw [h]
  with_unfolding_all decide

/-! ### Adaptive Stratified Partitioner: the two chained splits

The split routine itself is `sklearn.model_selection.train_test_split`, an
external library; its stratified behaviour is modelled from the spec. -/

/-- Number of elements of `l` in the same stratum as `i`. -/
def stratumCount (l : List ℕ) (k : ℕ → String) (i : ℕ) : ℕ :=
  l.countP fun j => k j == k i

/-- Position of `i` among the members of its stratum, in list order. -/
def rankIn (l : List ℕ) (k : ℕ → String) (i : ℕ) : ℕ :=
  (l.takeWhile fun j => j != i).countP fun j => k j == k i

/-- Every stratum of `l` has at least two members. -/
def strataOk (l : List ℕ) (k : ℕ → String) : Bool :=
  l.all fun i => decide (2 ≤ stratumCount l k i)

/-- `i` goes to the held-out side: the first `ceil(num/den * s)` members of
its stratum of size `s`. -/
def heldOut (l : List ℕ) (k : ℕ → String) (num den : ℕ) (i : ℕ) : Bool :=
  decide (den * rankIn l k i < num * stratumCount l k i)

/-- Modelled from the spec: `sklearn.model_selection.train_test_split` with
`stratify=key` (external library, not in this repository).  It fails when
some stratum has fewer members than the requested splits; otherwise it
partitions the index list into a kept side and a held-out side holding about
`num/den` of each stratum.  The seed only permutes the selection inside each
stratum and is omitted. -/
def train_test_split (l : List ℕ) (k : ℕ → String) (num den : ℕ) :
    Option (List ℕ × List ℕ) :=
  if strataOk l k then
    some (l.filter fun i => !heldOut l k num den i,
      l.filter fun i => heldOut l k num den i)
  else none

/-- The two chained splits of tools/setup_data.py: 70/30 on the full index
set, then 50/50 on the remainder, stratified on the same key. -/
def partition_plan (l : List ℕ) (k : ℕ → String) :
    Option (List ℕ × List ℕ × List ℕ) :=
  match train_test_split l k 30 100 with
  | none => none
  | some (tr, rem) =>
    match train_test_split rem k 50 100 with
    | none => none
    | some (te, pv) => some (tr, te, pv)

/-- C4: whenever the two chained splits succeed, the train, test and
private-test index sets are pairwise disjoint and their union is the full
index set of the cleaned dataset: every row lands in exactly one part. -/
theorem C4_partition_disjoint_cover (l : List ℕ) (k : ℕ → String)
    (tr te pv : List ℕ) (h : partition_plan l k = some (tr, te, pv)) :
    (∀ i, i ∈ l ↔ i ∈ tr ∨ i ∈ te ∨ i ∈ pv) ∧
      (∀ i, ¬(i ∈ tr ∧ i ∈ te)) ∧ (∀ i, ¬(i ∈ tr ∧ i ∈ pv)) ∧
      (∀ i, ¬(i ∈ te ∧ i ∈ pv)) := by
  simp only [partition_plan, train_test_split] at h
  by_cases h1 : strataOk l k
  · rw [if_pos h1] at h
    simp only [] at h
    by_cases h2 : strataOk (l.filter fun i => heldOut l k 30 100 i) k
    · rw [if_pos h2] at h
      simp only [Option.some.injEq] at h
      injection h with ha h'
      injection h' with hb hc
      subst ha hb hc
      refine ⟨fun i => ?_, fun i => ?_, fun i => ?_, fun i => ?_⟩ <;>
        · simp only [List.mem_filter, Bool.not_eq_true']
          rcases Bool.eq_false_or_eq_true (heldOut l k 30 100 i) with hb1 | hb1 <;>
            rcases Bool.eq_false_or_eq_true
              (heldOut (l.filter fun i => heldOut l k 30 100 i) k 50 100 i) with hb2 | hb2 <;>
              simp [hb1, hb2]
    · rw [if_neg h2] at h
      exact absurd h (by simp)
  · rw [if_neg h1] at h
    exact absurd h (by simp)

def idx4 : List ℕ := [0, 1, 2, 3]

def key1 : ℕ → String := fun _ => "s"

theorem C4_witness :
    (∀ i, i ∈ idx4 ↔ i ∈ ([2, 3] : List ℕ) ∨ i ∈ ([1] : List ℕ) ∨ i ∈ ([0] : List ℕ)) ∧
      (∀ i, ¬(i ∈ ([2, 3] : List ℕ) ∧ i ∈ ([1] : List ℕ))) ∧
      (∀ i, ¬(i ∈ ([2, 3] : List ℕ) ∧ i ∈ ([0] : List ℕ))) ∧
      (∀ i, ¬(i ∈ ([1] : List ℕ) ∧ i ∈ ([0] : List ℕ))) :=
  C4_partition_disjoint_cover idx4 key1 [2, 3] [1] [0] (by decide)

/-! ### Page Fetcher and Pagination Driver (tools/fetch_dpe_data.py)

Records are identified by their sort key (`numero_dpe`), modelled as a
natural number.  The HTTP transport is an oracle mapping one GET request
(cursor, size) to either an HTTP error code or a parsed payload: the page's
records and the next cursor extracted from the continuation URL. -/

def PAGE_SIZE : ℕ := 10000

/-- A transport oracle: the data service as seen through one GET request. -/
def Transport : Type := Option ℕ → ℕ → Except ℕ (List ℕ × Option ℕ)

/-- `fetch_page` (tools/fetch_dpe_data.py): one request of at most
`PAGE_SIZE` records after the cursor; an HTTP-level error is raised
immediately (`raise_for_status`), with no retry. -/
def fetch_page (http : Transport) (after : Option ℕ) (size : ℕ) :
    Except ℕ (List ℕ × Option ℕ) :=
  http after (min size PAGE_SIZE)

/-- The `while` loop of `fetch_dpe_data`: accumulate pages until the target
count is reached, a page comes back empty, or no next cursor is returned.
The fixed inter-page pause has no observable effect here and is omitted. -/
def fetch_loop (http : Transport) (nRows : ℕ) (acc : List ℕ) (after : Option ℕ) :
    Except ℕ (List ℕ) :=
  if h : acc.length < nRows then
    match fetch_page http after (min (nRows - acc.length) PAGE_SIZE) with
    | .error e => .error e
    | .ok (rows, next) =>
      if hr : rows = [] then .ok acc
      else
        match next with
        | none => .ok (acc ++ rows)
        | some a => fetch_loop http nRows (acc ++ rows) (some a)
  else .ok acc
termination_by nRows - acc.length
decreasing_by
  have hpos : 0 < rows.length := List.length_pos.mpr hr
  simp only [List.length_append]
  omega

/-- `fetch_dpe_data` (tools/fetch_dpe_data.py): run the loop from an empty
accumulator and no cursor. -/
def fetch_dpe_data (http : Transport) (nRows : ℕ) : Except ℕ (List ℕ) :=
  fetch_loop http nRows [] none

/-- C8: an HTTP-level failure is surfaced by the Page Fetcher immediately
(its result is that of the one request, no retry), and the Pagination Driver
does not catch it: at any reachable loop state, a failing page request
aborts the whole accumulation with that error and no partial result. -/
theorem C8_error_propagation (http : Transport) (after : Option ℕ)
    (size e nRows : ℕ) (acc : List ℕ) :
    (http after (min size PAGE_SIZE) = .error e →
      fetch_page http after size = .error e) ∧
    (acc.length < nRows →
      fetch_page http after (min (nRows - acc.length) PAGE_SIZE) = .error e →
      fetch_loop http nRows acc after = .error e) := by
  constructor
  · intro hh
    rw [fetch_page, hh]
  · intro hlt hfail
    rw [fetch_loop.eq_def, dif_pos hlt, hfail]

/-- A transport that always fails with HTTP status 500. -/
def httpFail : Transport := fun _ _ => .error 500

theorem C8_witness :
    fetch_page httpFail none 7 = .error 500 ∧
      fetch_loop httpFail 5 [] none = .error 500 :=
  ⟨(C8_error_propagation httpFail none 7 500 5 []).1 rfl,
    (C8_error_propagation httpFail none 7 500 5 []).2 (by decide) rfl⟩

/-- The request trace of the Pagination Driver: the (cursor, size) pair of
every page request the loop issues, in order. -/
def fetch_trace (http : Transport) (nRows : ℕ) (acc : List ℕ) (after : Option ℕ) :
    List (Option ℕ × ℕ) :=
  if h : acc.length < nRows then
    (after, min (nRows - acc.length) PAGE_SIZE) ::
      (match fetch_page http after (min (nRows - acc.length) PAGE_SIZE) with
       | .error _ => []
       | .ok (rows, next) =>
         if hr : rows = [] then []
         else
           match next with
           | none => []
           | some a => fetch_trace http nRows (acc ++ rows) (some a))
  else []
termination_by nRows - acc.length
decreasing_by
  have hpos : 0 < rows.length := List.length_pos.mpr hr
  simp only [List.length_append]
  omega

/-- A request trace obeying claim C6 from loop state (got, aft): each entry's
size is `min(remaining, PAGE_SIZE)` where remaining counts from the records
accumulated so far, each entry's cursor is the loop's current one, and each
subsequent request's cursor is exactly the next-cursor of the immediately
preceding page response. -/
inductive ChainOk (http : Transport) (nRows : ℕ) :
    ℕ → Option ℕ → List (Option ℕ × ℕ) → Prop where
  | nil : ∀ got aft, ChainOk http nRows got aft []
  | step : ∀ got aft rows next rest,
      fetch_page http aft (min (nRows - got) PAGE_SIZE) = .ok (rows, next) →
      ChainOk http nRows (got + rows.length) next rest →
      ChainOk http nRows got aft ((aft, min (nRows - got) PAGE_SIZE) :: rest)
  | fail : ∀ got aft e,
      fetch_page http aft (min (nRows - got) PAGE_SIZE) = .error e →
      ChainOk http nRows got aft [(aft, min (nRows - got) PAGE_SIZE)]

theorem fetch_trace_chainOk (http : Transport) (nRows : ℕ) :
    ∀ m (acc : List ℕ) (after : Option ℕ), nRows - acc.length = m →
      ChainOk http nRows acc.length after (fetch_trace http nRows acc after) := by
  intro m
  induction m using Nat.strong_induction_on with
  | _ m ih =>
    intro acc after hm
    rw [fetch_trace.eq_def]
    by_cases h : acc.length < nRows
    · rw [dif_pos h]
      split
      next e heq =>
        exact ChainOk.fail acc.length after e heq
      next rows nxt heq =>
        split
        next hr =>
          exact ChainOk.step acc.length after rows nxt [] heq (ChainOk.nil _ _)
        next hr =>
          cases nxt with
          | none =>
            exact ChainOk.step acc.length after rows none [] heq (ChainOk.nil _ _)
          | some a =>
            refine ChainOk.step acc.length after rows (some a) _ heq ?_
            have hlen : (acc ++ rows).length = acc.length + rows.length :=
              List.length_append acc rows
            have hpos : 0 < rows.length := List.length_pos.mpr hr
            have hrec := ih (nRows - (acc ++ rows).length) (by omega)
              (acc ++ rows) (some a) rfl
            rw [hlen] at hrec
            exact hrec
    · rw [dif_neg h]
      exact ChainOk.nil acc.length after

theorem fetch_trace_head (http : Transport) (nRows : ℕ) (acc : List ℕ)
    (after : Option ℕ) (hd : Option ℕ × ℕ) (rest : List (Option ℕ × ℕ))
    (h : fetch_trace http nRows acc after = hd :: rest) : hd.1 = after := by
  rw [fetch_trace.eq_def] at h
  by_cases hlt : acc.length < nRows
  · rw [dif_pos hlt] at h
    injection h with h1 _
    rw [← h1]
  · rw [dif_neg hlt] at h
    exact absurd h (by simp)

/-- C6: along every run of the Pagination Driver, the first page request
carries no cursor, every subsequent request carries exactly the next-cursor
returned by the immediately preceding page, and every request asks for
`min(remaining, PAGE_SIZE)` records, remaining being the target minus the
records accumulated so far. -/
theorem C6_cursor_chain (http : Transport) (nRows : ℕ) :
    ChainOk http nRows 0 none (fetch_trace http nRows [] none) ∧
      ∀ hd rest, fetch_trace http nRows [] none = hd :: rest → hd.1 = none := by
  constructor
  · exact fetch_trace_chainOk http nRows nRows [] none rfl
  · exact fun hd rest h => fetch_trace_head http nRows [] none hd rest h

theorem C6_witness_trace :
    fetch_trace httpFail 1 [] none = [(none, min 1 PAGE_SIZE)] := by
  rw [fetch_trace.eq_def]
  norm_num [fetch_page, httpFail]

theorem C6_witness :
    ChainOk httpFail 1 0 none (fetch_trace httpFail 1 [] none) ∧
      ((none, min 1 PAGE_SIZE) : Option ℕ × ℕ).1 = none :=
  ⟨(C6_cursor_chain httpFail 1).1,
    (C6_cursor_chain httpFail 1).2 (none, min 1 PAGE_SIZE) [] C6_witness_trace⟩

/-! ### A simulated data service, for the pagination guarantee -/

/-- The records of `server` strictly after cursor `after`. -/
def pendingFor (server : List ℕ) (after : Option ℕ) : List ℕ :=
  match after with
  | none => server
  | some a => server.filter fun x => decide (a < x)

/-- Modelled from the spec: the remote data service, an external system seen
through the HTTP interface of §6.  It serves its record set sorted by the
sort key; a page holds the first `min size PAGE_SIZE` records after the
cursor, and the `next` continuation carries the last served record's sort
key, absent when the source is exhausted. -/
def serverHttp (server : List ℕ) : Transport := fun after size =>
  .ok ((pendingFor server after).take (min size PAGE_SIZE),
    if ((pendingFor server after).drop (min size PAGE_SIZE)).isEmpty then none
    else ((pendingFor server after).take (min size PAGE_SIZE)).getLast?)

theorem sorted_le_getLast : ∀ {l : List ℕ}, l.Pairwise (· < ·) →
    ∀ {a : ℕ}, l.getLast? = some a → ∀ {x : ℕ}, x ∈ l → x ≤ a := by
  intro l
  induction l with
  | nil =>
    intro _ a ha
    simp at ha
  | cons b t ih =>
    intro hp a ha x hx
    cases t with
    | nil =>
      simp at ha hx
      omega
    | cons c t' =>
      rw [List.getLast?_cons_cons] at ha
      rcases List.mem_cons.mp hx with rfl | hx2
      · exact le_of_lt ((List.pairwise_cons.mp hp).1 a (List.mem_of_getLast?_eq_some ha))
      · exact ih (List.pairwise_cons.mp hp).2 ha hx2

theorem filter_gt_split {xs ys : List ℕ} {a : ℕ}
    (ha : ∀ x ∈ xs, x ≤ a) (hb : ∀ y ∈ ys, a < y) :
    (xs ++ ys).filter (fun x => decide (a < x)) = ys := by
  rw [List.filter_append]
  have h1 : xs.filter (fun x => decide (a < x)) = [] :=
    List.filter_eq_nil_iff.mpr fun x hx => by
      simp only [decide_eq_true_eq]
      exact not_lt.mpr (ha x hx)
  have h2 : ys.filter (fun x => decide (a < x)) = ys :=
    List.filter_eq_self.mpr fun y hy => by
      simp only [decide_eq_true_eq]
      exact hb y hy
  rw [h1, h2, List.nil_append]

theorem fetch_loop_server (server : List ℕ) (hs : server.Pairwise (· < ·))
    (nRows : ℕ) :
    ∀ m pre pending (acc : List ℕ) (after : Option ℕ), pending.length = m →
      server = pre ++ pending → pendingFor server after = pending →
      fetch_loop (serverHttp server) nRows acc after =
        .ok (acc ++ pending.take (nRows - acc.length)) := by
  intro m
  induction m using Nat.strong_induction_on with
  | _ m ih =>
    intro pre pending acc after hm hsrv hpend
    rw [fetch_loop.eq_def]
    by_cases h : acc.length < nRows
    case neg =>
      rw [dif_neg h]
      have h0 : nRows - acc.length = 0 := by omega
      rw [h0, List.take_zero, List.append_nil]
    case pos =>
      rw [dif_pos h]
      have hP : (1 : ℕ) ≤ PAGE_SIZE := by norm_num [PAGE_SIZE]
      have hsz : 1 ≤ min (nRows - acc.length) PAGE_SIZE := le_min (by omega) hP
      have hclamp : min (min (nRows - acc.length) PAGE_SIZE) PAGE_SIZE =
          min (nRows - acc.length) PAGE_SIZE := by
        rw [min_assoc, min_self]
      have hfp : fetch_page (serverHttp server) after
            (min (nRows - acc.length) PAGE_SIZE) =
          .ok (pending.take (min (nRows - acc.length) PAGE_SIZE),
            if (pending.drop (min (nRows - acc.length) PAGE_SIZE)).isEmpty then none
            else (pending.take (min (nRows - acc.length) PAGE_SIZE)).getLast?) := by
        simp only [fetch_page, serverHttp]
        rw [hclamp, hclamp, hpend]
      by_cases hnil : pending = []
      · subst hnil
        simp only [List.take_nil, List.drop_nil, List.isEmpty_nil, if_true] at hfp
        simp [hfp]
      · have hrne : pending.take (min (nRows - acc.length) PAGE_SIZE) ≠ [] := by
          intro he
          rcases List.take_eq_nil_iff.mp he with h0 | h0
          · omega
          · exact hnil h0
        by_cases hre : (pending.drop (min (nRows - acc.length) PAGE_SIZE)).isEmpty
        · have hlen : pending.length ≤ min (nRows - acc.length) PAGE_SIZE :=
            List.drop_eq_nil_iff.mp (List.isEmpty_iff.mp hre)
          have h1 : pending.take (min (nRows - acc.length) PAGE_SIZE) = pending :=
            List.take_of_length_le hlen
          have h2 : pending.take (nRows - acc.length) = pending :=
            List.take_of_length_le (le_trans hlen (min_le_left _ _))
          rw [if_pos hre] at hfp
          simp only [hfp, dif_neg hrne, h1, h2]
          rw [dif_neg hnil]
        · rw [if_neg hre] at hfp
          obtain ⟨a, ha⟩ : ∃ a,
              (pending.take (min (nRows - acc.length) PAGE_SIZE)).getLast? = some a := by
            cases hLa : (pending.take (min (nRows - acc.length) PAGE_SIZE)).getLast? with
            | none => exact absurd (List.getLast?_eq_none_iff.mp hLa) hrne
            | some a => exact ⟨a, rfl⟩
          rw [ha] at hfp
          simp only [hfp, dif_neg hrne]
          -- the loop recurses on (acc ++ taken) with cursor a
          have hamem : a ∈ pending.take (min (nRows - acc.length) PAGE_SIZE) :=
            List.mem_of_getLast?_eq_some ha
          have hsplit : pending = pending.take (min (nRows - acc.length) PAGE_SIZE) ++
              pending.drop (min (nRows - acc.length) PAGE_SIZE) :=
            (List.take_append_drop _ pending).symm
          have hpw_pending : pending.Pairwise (· < ·) := by
            rw [hsrv] at hs
            exact (List.pairwise_append.mp hs).2.1
          have hpw_rows : (pending.take (min (nRows - acc.length) PAGE_SIZE)).Pairwise
              (· < ·) := List.Pairwise.sublist (List.take_sublist _ _) hpw_pending
          have hcross : ∀ x ∈ pending.take (min (nRows - acc.length) PAGE_SIZE),
              ∀ y ∈ pending.drop (min (nRows - acc.length) PAGE_SIZE), x < y := by
            have := List.pairwise_append.mp (hsplit ▸ hpw_pending)
            exact this.2.2
          have hnewpend : pendingFor server (some a) =
              pending.drop (min (nRows - acc.length) PAGE_SIZE) := by
            show server.filter (fun x => decide (a < x)) = _
            have hsrv2 : server = (pre ++ pending.take (min (nRows - acc.length) PAGE_SIZE))
                ++ pending.drop (min (nRows - acc.length) PAGE_SIZE) := by
              rw [List.append_assoc, ← hsplit]
              exact hsrv
            rw [hsrv2]
            apply filter_gt_split
            · intro x hx
              rcases List.mem_append.mp hx with hx1 | hx2
              · -- x in pre: below every element of pending
                have hc : ∀ u ∈ pre, ∀ v ∈ pending, u < v := by
                  rw [hsrv] at hs
                  exact (List.pairwise_append.mp hs).2.2
                exact le_of_lt (hc x hx1 a ((List.take_sublist _ _).subset hamem))
              · exact sorted_le_getLast hpw_rows ha hx2
            · intro y hy
              exact hcross a hamem y hy
          have hlt : (pending.drop (min (nRows - acc.length) PAGE_SIZE)).length <
              pending.length := by
            rw [List.length_drop]
            have hp0 : 0 < pending.length := List.length_pos.mpr hnil
            omega
          have hrec := ih (pending.drop (min (nRows - acc.length) PAGE_SIZE)).length
            (hm ▸ hlt) (pre ++ pending.take (min (nRows - acc.length) PAGE_SIZE))
            (pending.drop (min (nRows - acc.length) PAGE_SIZE))
            (acc ++ pending.take (min (nRows - acc.length) PAGE_SIZE)) (some a) rfl
            (by rw [List.append_assoc, ← hsplit]; exact hsrv) hnewpend
          rw [hrec]
          -- align the accumulated prefix and the remaining take
          have hrlen : (pending.take (min (nRows - acc.length) PAGE_SIZE)).length ≤
              nRows - acc.length := by
            have h5 := List.length_take_le (min (nRows - acc.length) PAGE_SIZE) pending
            have h6 := min_le_left (nRows - acc.length) PAGE_SIZE
            omega
          have htake : pending.take (nRows - acc.length) =
              pending.take (min (nRows - acc.length) PAGE_SIZE) ++
                (pending.drop (min (nRows - acc.length) PAGE_SIZE)).take
                  ((nRows - acc.length) -
                    (pending.take (min (nRows - acc.length) PAGE_SIZE)).length) := by
            conv =>
              lhs
              rw [hsplit]
            rw [List.take_append_eq_append_take,
              List.take_of_length_le hrlen]
          have harg : nRows -
              (acc ++ pending.take (min (nRows - acc.length) PAGE_SIZE)).length =
              (nRows - acc.length) -
                (pending.take (min (nRows - acc.length) PAGE_SIZE)).length := by
            rw [List.length_append]
            omega
          rw [harg, htake, List.append_assoc]

/-- C3: against the simulated sorted data service holding N records, the
Pagination Driver returns exactly `min(requested, N)` records — never more
than requested, fewer being the normal exhaustion outcome, not a failure —
each source record appearing at most once, in fetch (sort-key) order. -/
theorem C3_pagination_bound (server : List ℕ) (nRows : ℕ)
    (hs : server.Pairwise (· < ·)) :
    fetch_dpe_data (serverHttp server) nRows = .ok (server.take nRows) ∧
      (server.take nRows).length = min nRows server.length ∧
      (server.take nRows).length ≤ nRows ∧
      (server.take nRows).Nodup ∧
      (server.take nRows).Pairwise (· < ·) ∧
      (∀ x ∈ server.take nRows, x ∈ server) := by
  have hmain := fetch_loop_server server hs nRows server.length [] server [] none rfl
    (List.nil_append server).symm rfl
  have hpw : (server.take nRows).Pairwise (· < ·) :=
    List.Pairwise.sublist (List.take_sublist nRows server) hs
  refine ⟨?_, List.length_take nRows server, List.length_take_le nRows server,
    hpw.imp fun hlt => Nat.ne_of_lt hlt, hpw,
    fun x hx => (List.take_sublist nRows server).subset hx⟩
  rw [fetch_dpe_data, hmain]
  simp

theorem C3_witness :
    fetch_dpe_data (serverHttp [5, 9]) 1 = .ok (([5, 9] : List ℕ).take 1) ∧
      (([5, 9] : List ℕ).take 1).length = min 1 ([5, 9] : List ℕ).length ∧
      (([5, 9] : List ℕ).take 1).length ≤ 1 ∧
      (([5, 9] : List ℕ).take 1).Nodup ∧
      (([5, 9] : List ℕ).take 1).Pairwise (· < ·) ∧
      (∀ x ∈ ([5, 9] : List ℕ).take 1, x ∈ ([5, 9] : List ℕ)) :=
  C3_pagination_bound [5, 9] 1 (by decide)

end DPE
